import Mathlib

/-!
Verification of the Octonion Semantic Classifier System's core pipeline
(transformer worker: chunking, similarity softmax, diagnostics, octonion
propagation table, worker message handler) against its specification.

The JavaScript source is embedded shallowly: strings are lists of
characters, JS numbers are rationals (with the transcendental library
functions Math.exp and Math.sqrt abstracted as oracle parameters), arrays
with possible null/undefined entries are lists of options, and fallible
code returns Except.
-/

namespace Oscs

/-! ### Chunker: sentence splitting and greedy accumulation -/

/-- Sentence-ending punctuation, the character class of the source regex
`[^.!?]+[.!?]+`. -/
def isSentEnd (ch : Char) : Bool := ch == '.' || ch == '!' || ch == '?'

/-- Whitespace characters removed by the JavaScript String.trim on the
inputs this model handles. -/
def isJsSpace (ch : Char) : Bool := ch == ' ' || ch == '\t' || ch == '\n' || ch == '\r'

/-- JavaScript String.trim: drop whitespace from both ends. -/
def jsTrim (s : List Char) : List Char :=
  ((s.dropWhile isJsSpace).reverse.dropWhile isJsSpace).reverse

/-- Scanner for the global regex match `text.match(/[^.!?]+[.!?]+/g)`.
`a` holds the current reversed run of non-terminator characters, `b` the
current reversed run of terminator characters.  A match is a maximal
non-terminator run followed by a maximal terminator run; leading
terminator characters and a trailing run with no terminator belong to no
match and are discarded, exactly as the regex engine does. -/
def sentAux : List Char → List Char → List Char → List (List Char)
  | [], a, b => if a ≠ [] ∧ b ≠ [] then [a.reverse ++ b.reverse] else []
  | ch :: rest, a, b =>
    if isSentEnd ch then
      if a = [] then sentAux rest [] []
      else sentAux rest a (ch :: b)
    else
      if b = [] then sentAux rest (ch :: a) []
      else (a.reverse ++ b.reverse) :: sentAux rest [ch] []

/-- All matches of the sentence regex `[^.!?]+[.!?]+` over the text. -/
def matchSentences (text : List Char) : List (List Char) := sentAux text [] []

/-- The sentence list used by classifyText:
`text.match(/[^.!?]+[.!?]+/g) || [text]` — the whole text is a single
sentence when the regex finds no match. -/
def sentencesOf (text : List Char) : List (List Char) :=
  if matchSentences text = [] then [text] else matchSentences text

/-- The chunk-accumulation loop of classifyText: greedily append sentences
to `cur`; when appending would exceed `maxC`, emit `cur` if it reaches
`minC`, otherwise merge forward anyway; finally push a nonempty leftover. -/
def chunkLoop (maxC minC : ℕ) : List (List Char) → List Char → List (List Char)
  | [], cur => if cur = [] then [] else [cur]
  | s :: rest, cur =>
    if maxC < (cur ++ s).length then
      if minC ≤ cur.length then cur :: chunkLoop maxC minC rest s
      else chunkLoop maxC minC rest (cur ++ s)
    else chunkLoop maxC minC rest (cur ++ s)

/-- The chunker of classifyText (sentence splitting plus accumulation). -/
def chunks (text : List Char) (maxC minC : ℕ) : List (List Char) :=
  chunkLoop maxC minC (sentencesOf text) []

/-- Length of the longest sentence produced for the text (0 when there are
none); used to bound chunk sizes. -/
def maxSentLen (text : List Char) : ℕ :=
  ((sentencesOf text).map List.length).foldr max 0

/-! ### Diagnostics: cohomology class and Zariski coverings -/

/-- computeCohomologyClass: walk the 7-vector cyclically, count forward
differences that exceed 0.1 in absolute value and are positive, and return
that count modulo 2. -/
def computeCohomologyClass (v : Fin 7 → ℚ) : ℕ :=
  ((List.finRange 7).foldl (fun acc i =>
    if 1/10 < |v (i + 1) - v i| then acc + (if 0 < v (i + 1) - v i then 1 else 0)
    else acc) 0) % 2

/-- Probability mass of the subset of the 7 indices selected by the bits of
`mask`, as accumulated inside zariskiCoverings. -/
def subsetMass (v : Fin 7 → ℚ) (mask : ℕ) : ℚ :=
  ∑ i : Fin 7, if Nat.testBit mask i.val then v i else 0

/-- zariskiCoverings: the non-empty subsets (bitmask 1..127) whose
probability mass reaches the 0.8 threshold.  The source stores records; we
keep the masks, whose count is the covering count the worker reports. -/
def zariskiCoverings (v : Fin 7 → ℚ) : List ℕ :=
  (List.range' 1 127).filter fun mask => 4/5 ≤ subsetMass v mask

/-- The uniform probability vector with all seven entries 1/7. -/
def uniformVec : Fin 7 → ℚ := fun _ => 1/7

/-! ### Octonion multiplication table and narrative propagation -/

/-- Shape of the source's octTable: an array of rows, each row an array of
entries; a missing row (the JavaScript null row 0, or an out-of-range
index) is none, and a missing entry (null column 0) is none. -/
def OctTableT : Type := List (Option (List (Option (Int × ℕ))))

/-- The fixed octonion multiplication table (Fano plane structure) of the
worker, row and column 0 null, entries [sign, index]. -/
def octTable : OctTableT :=
  [ none,
    some [none, some (-1,0), some (1,4), some (1,7), some (-1,2), some (1,6), some (-1,5), some (-1,3)],
    some [none, some (-1,4), some (-1,0), some (1,5), some (1,1), some (-1,3), some (1,7), some (-1,6)],
    some [none, some (-1,7), some (-1,5), some (-1,0), some (1,6), some (1,2), some (-1,4), some (1,1)],
    some [none, some (1,2), some (-1,1), some (-1,6), some (-1,0), some (1,7), some (1,3), some (-1,5)],
    some [none, some (-1,6), some (1,3), some (-1,2), some (-1,7), some (-1,0), some (1,1), some (1,4)],
    some [none, some (1,5), some (-1,7), some (1,4), some (-1,3), some (-1,1), some (-1,0), some (1,2)],
    some [none, some (1,3), some (1,6), some (-1,1), some (1,5), some (-1,4), some (-1,2), some (-1,0)] ]

/-- Row lookup `T[i]`: none when the row is null or the index is out of
range (JavaScript null/undefined). -/
def rowOf (T : OctTableT) (i : ℕ) : Option (List (Option (Int × ℕ))) :=
  (T.get? i).join

/-- Entry lookup `T[i][j]` when the row exists; none models a null or
undefined entry. -/
def entryOf (T : OctTableT) (i j : ℕ) : Option (Int × ℕ) :=
  (rowOf T i).bind fun row => (row.get? j).join

/-- Entry of the fixed octTable. -/
def octEntry (i j : ℕ) : Option (Int × ℕ) := entryOf octTable i j

/-- Sign component of an octTable entry (1 when absent; only used where
the entry exists). -/
def octSignD (i j : ℕ) : Int := ((octEntry i j).map Prod.fst).getD 1

/-- Target component of an octTable entry (0 when absent; only used where
the entry exists). -/
def octTargetD (i j : ℕ) : ℕ := ((octEntry i j).map Prod.snd).getD 0

/-- Error outcomes of propagateNarrative: the explicit range throw
(`Invalid dimension in chain`), the JavaScript TypeError raised by
indexing a null or undefined row, and the explicit null-product throw
(`Invalid octonion multiplication`). -/
inductive PropError where
  | invalidDimension (n : ℕ)
  | typeError
  | invalidProduct
  deriving DecidableEq, Repr

/-- The source expression `octTable[currentDim][nextDim]`: indexing a null
or undefined row raises a TypeError; an existing row yields its entry,
which may itself be null (the column 0 entry). -/
def tableLookup (dim n : ℕ) : Except PropError (Option (Int × ℕ)) :=
  match rowOf octTable dim with
  | none => .error .typeError
  | some row => .ok ((row.get? n).join)

/-- Loop body of propagateNarrative: accumulator (sign, dimension), one
table lookup per chain element.  The range check precedes the lookup; a
null product raises the explicit invalid-multiplication throw. -/
def propagateGo : Int → ℕ → List ℕ → Except PropError (Int × ℕ)
  | sign, dim, [] => .ok (sign, dim)
  | sign, dim, n :: rest =>
    if n < 1 ∨ 7 < n then .error (.invalidDimension n)
    else
      match tableLookup dim n with
      | .error e => .error e
      | .ok none => .error .invalidProduct
      | .ok (some p) => propagateGo (sign * p.1) p.2 rest

/-- propagateNarrative: start from (+1, startDim) and fold the chain
through the table.  The source also formats labels and a verbose trace,
which carry no further information. -/
def propagateNarrative (startDim : ℕ) (chain : List ℕ) : Except PropError (Int × ℕ) :=
  propagateGo 1 startDim chain

/-- A chain is walkable from a dimension: every element is in 1..7 and the
current dimension is a non-null row (nonzero) at every step. -/
def validChain : ℕ → List ℕ → Bool
  | _, [] => true
  | dim, n :: rest =>
    decide (1 ≤ n) && decide (n ≤ 7) && decide (dim ≠ 0) &&
      validChain (octTargetD dim n) rest

/-- Pure fold computing the propagation result on a walkable chain: each
step multiplies the sign by the table sign and moves to the table target. -/
def chainResult : Int → ℕ → List ℕ → Int × ℕ
  | sign, dim, [] => (sign, dim)
  | sign, dim, n :: rest => chainResult (sign * octSignD dim n) (octTargetD dim n) rest

/-! ### Vectorizer: classifyText -/

/-- cosineSimilarity of the worker, with Math.sqrt abstracted as the
oracle S.  The source guard `|| 0` (NaN from a zero denominator) is the
zero-denominator branch. -/
def cosineSimilarity (S : ℚ → ℚ) (a b : Fin 384 → ℚ) : ℚ :=
  let dot := ∑ i : Fin 384, a i * b i
  let magA := ∑ i : Fin 384, a i * a i
  let magB := ∑ i : Fin 384, b i * b i
  if S magA * S magB = 0 then 0 else dot / (S magA * S magB)

/-- The embeddings actually accumulated by the classify loop: chunks whose
trimmed length is below 10 are skipped, and so is any chunk on which the
embedder fails (the caught warning branch). -/
def validEmbeddings (emb : List Char → Option (Fin 384 → ℚ))
    (text : List Char) (maxC minC : ℕ) : List (Fin 384 → ℚ) :=
  (chunks text maxC minC).filterMap fun c =>
    if (jsTrim c).length < 10 then none else emb (jsTrim c)

/-- Classification failure: the only throw reachable in the initialized
model, `No valid chunks to embed` (the spec's EmptyInputError). -/
inductive ClassifyError where
  | emptyInput
  deriving DecidableEq, Repr

/-- The record returned by classifyText (numeric fields; the verbose label
string is currentLabels[dominant-1]). -/
structure ClassifyResult where
  dominant : ℕ
  label : String
  vector : Fin 7 → ℚ
  rawVector : Fin 7 → ℚ
  avgEmbedding : Fin 384 → ℚ
  cohomologyClass : ℕ
  zariskiCount : ℕ
  confidence : ℚ
  chunksProcessed : ℕ

instance : Inhabited ClassifyResult :=
  ⟨{ dominant := 0, label := "", vector := fun _ => 0, rawVector := fun _ => 0,
     avgEmbedding := fun _ => 0, cohomologyClass := 0, zariskiCount := 0,
     confidence := 0, chunksProcessed := 0 }⟩

/-- The successful branch of classifyText, given the nonempty list of
chunk embeddings: average them, take the cosine similarity against the 7
prototype embeddings, apply exp(max(0, raw) * 5) with the Math.exp oracle
E, normalize by the sum, and derive dominant index, diagnostics and
confidence. -/
def classifyResultOf (E S : ℚ → ℚ) (labels : List String)
    (protoEmbeddings : Fin 7 → Fin 384 → ℚ)
    (embs : List (Fin 384 → ℚ)) : ClassifyResult :=
  let avgEmbedding : Fin 384 → ℚ := fun i => (embs.map fun v => v i).sum / (embs.length : ℚ)
  let rawVector : Fin 7 → ℚ := fun j => cosineSimilarity S avgEmbedding (protoEmbeddings j)
  let expScores : Fin 7 → ℚ := fun j => E (max 0 (rawVector j) * 5)
  let sumExp : ℚ := ∑ j : Fin 7, expScores j
  let vector : Fin 7 → ℚ := fun j => expScores j / sumExp
  let scores : List ℚ := (List.finRange 7).map vector
  let maxScore : ℚ := scores.foldr max (vector 0)
  let dominant : ℕ := scores.indexOf maxScore + 1
  { dominant := dominant
    label := labels.getD (dominant - 1) ""
    vector := vector
    rawVector := rawVector
    avgEmbedding := avgEmbedding
    cohomologyClass := computeCohomologyClass vector
    zariskiCount := (zariskiCoverings vector).length
    confidence := maxScore
    chunksProcessed := embs.length }

/-- classifyText of the worker: chunk the text, embed the valid chunks
(skipping failures), fail with EmptyInputError when none embeds, else
build the classification result. -/
def classifyText (E S : ℚ → ℚ) (emb : List Char → Option (Fin 384 → ℚ))
    (labels : List String) (protoEmbeddings : Fin 7 → Fin 384 → ℚ)
    (text : List Char) (maxC minC : ℕ) : Except ClassifyError ClassifyResult :=
  if (validEmbeddings emb text maxC minC).length = 0 then .error .emptyInput
  else .ok (classifyResultOf E S labels protoEmbeddings (validEmbeddings emb text maxC minC))

/-- Rectified temperature-5 softmax as the specification words it: entry i
is exp(max(0, raw i) * 5) divided by the sum of those exponentials, with
the exponential oracle E. -/
def rectifiedSoftmax (E : ℚ → ℚ) (raw : Fin 7 → ℚ) : Fin 7 → ℚ :=
  fun i => E (max 0 (raw i) * 5) / ∑ j : Fin 7, E (max 0 (raw j) * 5)

/-! ### Worker state and the set-labels message -/

/-- The mutable worker globals the set-labels message touches. -/
structure WorkerState where
  currentLabels : List String
  prototypes : List String
  prototypeEmbeddings : List (List ℚ)
  deriving DecidableEq

/-- updatePrototypeEmbeddings: re-embed prototypes 1..length-1 (index 0 is
the unused real scalar), with the embedder as an oracle. -/
def updatePrototypeEmbeddings (emb : String → List ℚ) (protos : List String) : List (List ℚ) :=
  (protos.drop 1).map emb

/-- The set-labels message case: require exactly 7 labels (otherwise throw
before touching anything), assign them, and re-embed prototypes only when
a prototype array of length exactly 8 is supplied; any other prototype
payload is ignored without error. -/
def setLabels (emb : String → List ℚ) (st : WorkerState)
    (labels : Option (List String)) (protos : Option (List String)) :
    Except String WorkerState :=
  match labels with
  | some ls =>
    if ls.length = 7 then
      match protos with
      | some ps =>
        if ps.length = 8 then
          .ok { currentLabels := ls, prototypes := ps,
                prototypeEmbeddings := updatePrototypeEmbeddings emb ps }
        else .ok { st with currentLabels := ls }
      | none => .ok { st with currentLabels := ls }
    else .error "Labels must be array of exactly 7 strings"
  | none => .error "Labels must be array of exactly 7 strings"

/-! ### Fano cycle portion of verifyFanoStructure -/

/-- The seven Fano plane cycles checked by verifyFanoStructure. -/
def fanoCycles : List (ℕ × ℕ × ℕ) :=
  [(1,2,4), (2,3,5), (3,4,6), (4,5,7), (5,6,1), (6,7,2), (7,1,3)]

/-- One iteration of the cycle loop of verifyFanoStructure: skip the cycle
when any of the three entries is missing, otherwise report the cycle when
the product of the three signs is neither -1 nor 1. -/
def cycleInconsistency (T : OctTableT) (cyc : ℕ × ℕ × ℕ) : Option (ℕ × ℕ × ℕ) :=
  match entryOf T cyc.1 cyc.2.1, entryOf T cyc.2.1 cyc.2.2, entryOf T cyc.2.2 cyc.1 with
  | some ab, some bc, some ca =>
    if ab.1 * bc.1 * ca.1 ≠ -1 ∧ ab.1 * bc.1 * ca.1 ≠ 1 then some cyc else none
  | _, _, _ => none

/-- The warnings contributed by the Fano-cycle portion of
verifyFanoStructure (identified by the offending cycle). -/
def cycleWarnings (T : OctTableT) : List (ℕ × ℕ × ℕ) :=
  fanoCycles.filterMap (cycleInconsistency T)

/-! ### Concrete demonstration inputs -/

/-- Constant exponential oracle used for concrete runs. -/
def demoE : ℚ → ℚ := fun _ => 1

/-- Constant square-root oracle used for concrete runs. -/
def demoS : ℚ → ℚ := fun _ => 1

/-- Embedder oracle that embeds every chunk as the zero vector. -/
def demoEmb : List Char → Option (Fin 384 → ℚ) := fun _ => some (fun _ => 0)

/-- Embedder oracle that fails on every chunk. -/
def demoEmbNone : List Char → Option (Fin 384 → ℚ) := fun _ => none

/-- The default label set of the worker. -/
def demoLabels : List String :=
  ["Root", "Sacral", "Solar-Plexus", "Heart", "Throat", "Third-Eye", "Crown"]

/-- Zero prototype embeddings for concrete runs. -/
def demoProtos : Fin 7 → Fin 384 → ℚ := fun _ _ => 0

/-- A single-sentence text whose one chunk passes the 10-character trim
check. -/
def demoText : List Char := "aaaaaaaaaaaa.".toList

/-- The result of the concrete classify run with the demo oracles. -/
def demoResult : ClassifyResult :=
  ((classifyText demoE demoS demoEmb demoLabels demoProtos demoText 512 100).toOption).getD default

/-- A 6-element label list (one short). -/
def labels6 : List String := ["a", "b", "c", "d", "e", "f"]

/-- A well-formed 7-element label list. -/
def labels7 : List String := ["L1", "L2", "L3", "L4", "L5", "L6", "L7"]

/-- A 7-element prototype-description list (the length the specification's
configuration interface uses; the worker expects 8 with index 0 unused). -/
def protos7 : List String := ["p1", "p2", "p3", "p4", "p5", "p6", "p7"]

/-- Constant string embedder oracle for configuration runs. -/
def emb0 : String → List ℚ := fun _ => [0]

/-- A concrete worker state with the default labels and a cached set of
prototype embeddings. -/
def st0 : WorkerState :=
  { currentLabels := demoLabels
    prototypes := ["", "q1", "q2", "q3", "q4", "q5", "q6", "q7"]
    prototypeEmbeddings := [[1], [1], [1], [1], [1], [1], [1]] }

end Oscs

namespace Oscs

/-! ### Helper lemmas -/

/-- Flattening the chunk loop output recovers the pending chunk followed by
the remaining sentences. -/
lemma chunkLoop_flatten (maxC minC : ℕ) :
    ∀ (ss : List (List Char)) (cur : List Char),
      (chunkLoop maxC minC ss cur).flatten = cur ++ ss.flatten
  | [], cur => by
    by_cases h : cur = [] <;> simp [chunkLoop, h]
  | s :: rest, cur => by
    simp only [chunkLoop]
    split
    · split
      · simp [chunkLoop_flatten maxC minC rest s]
      · simp [chunkLoop_flatten maxC minC rest (cur ++ s)]
    · simp [chunkLoop_flatten maxC minC rest (cur ++ s)]

/-- Every member of a list of strings is bounded by the folded maximum of
the lengths. -/
lemma length_le_foldrMax : ∀ (l : List (List Char)) (s : List Char), s ∈ l →
    s.length ≤ (l.map List.length).foldr max 0
  | [], _, hs => absurd hs (List.not_mem_nil _)
  | h :: t, s, hs => by
    rcases List.mem_cons.mp hs with rfl | hs
    · simp only [List.map_cons, List.foldr_cons]
      exact le_max_left _ _
    · simp only [List.map_cons, List.foldr_cons]
      exact le_trans (length_le_foldrMax t s hs) (le_max_right _ _)

/-- Size invariant of the chunk loop: if every pending sentence is at most
L long and the current accumulation is within the bound, every emitted
chunk is at most max maxC (minC - 1 + L) long. -/
lemma chunkLoop_bound (maxC minC L : ℕ) :
    ∀ (ss : List (List Char)) (cur : List Char),
      (∀ s ∈ ss, s.length ≤ L) → cur.length ≤ max maxC (minC - 1 + L) →
      ∀ c ∈ chunkLoop maxC minC ss cur, c.length ≤ max maxC (minC - 1 + L)
  | [], cur => by
    intro _ hcur c hc
    simp only [chunkLoop] at hc
    split at hc
    · simp at hc
    · rw [List.mem_singleton] at hc
      subst hc
      exact hcur
  | s :: rest, cur => by
    intro hss hcur c hc
    have hsL : s.length ≤ L := hss s (List.mem_cons_self _ _)
    have hrest : ∀ x ∈ rest, x.length ≤ L :=
      fun x hx => hss x (List.mem_cons_of_mem _ hx)
    simp only [chunkLoop] at hc
    by_cases h1 : maxC < (cur ++ s).length
    · rw [if_pos h1] at hc
      by_cases h2 : minC ≤ cur.length
      · rw [if_pos h2] at hc
        rcases List.mem_cons.mp hc with rfl | hc
        · exact hcur
        · refine chunkLoop_bound maxC minC L rest s hrest ?_ c hc
          exact le_trans (le_trans hsL (Nat.le_add_left L (minC - 1))) (le_max_right _ _)
      · rw [if_neg h2] at hc
        refine chunkLoop_bound maxC minC L rest (cur ++ s) hrest ?_ c hc
        have hlen : (cur ++ s).length ≤ minC - 1 + L := by
          rw [List.length_append]
          omega
        exact le_trans hlen (le_max_right _ _)
    · rw [if_neg h1] at hc
      refine chunkLoop_bound maxC minC L rest (cur ++ s) hrest ?_ c hc
      exact le_trans (by omega) (le_max_left _ (minC - 1 + L))

/-- A rectified softmax with a positive exponential oracle has nonnegative
entries summing to exactly 1. -/
lemma rectifiedSoftmax_props (E : ℚ → ℚ) (hE : ∀ x, 0 < E x) (raw : Fin 7 → ℚ) :
    (∀ j, 0 ≤ rectifiedSoftmax E raw j) ∧
    (∑ j : Fin 7, rectifiedSoftmax E raw j) = 1 := by
  have hpos : (0:ℚ) < ∑ k : Fin 7, E (max 0 (raw k) * 5) :=
    Finset.sum_pos (fun k _ => hE _) Finset.univ_nonempty
  constructor
  · intro j
    exact div_nonneg (le_of_lt (hE _)) (le_of_lt hpos)
  · simp only [rectifiedSoftmax]
    rw [← Finset.sum_div]
    exact div_self (ne_of_gt hpos)

/-- The length-zero test of classifyText holds exactly when every chunk is
either too short after trimming or fails to embed. -/
lemma validEmbeddings_empty_iff (emb : List Char → Option (Fin 384 → ℚ))
    (text : List Char) (maxC minC : ℕ) :
    (validEmbeddings emb text maxC minC).length = 0 ↔
      ∀ c ∈ chunks text maxC minC, 10 ≤ (jsTrim c).length → emb (jsTrim c) = none := by
  rw [List.length_eq_zero, validEmbeddings, List.filterMap_eq_nil_iff]
  constructor
  · intro h c hc hlen
    have hcc := h c hc
    rwa [if_neg (by omega)] at hcc
  · intro h c hc
    by_cases hlen : (jsTrim c).length < 10
    · rw [if_pos hlen]
    · rw [if_neg hlen]
      exact h c hc (by omega)

/-- Bounded totality of the multiplication table: rows 1..7 hold an entry
at every column 1..7 and every target stays in 0..7. -/
lemma octEntry_total (dim n : ℕ) (hd1 : 1 ≤ dim) (hd7 : dim ≤ 7) (hn1 : 1 ≤ n) (hn7 : n ≤ 7) :
    (octEntry dim n).isSome = true ∧ octTargetD dim n ≤ 7 := by
  interval_cases dim <;> interval_cases n <;> decide

/-- A present table entry determines the source lookup expression. -/
lemma tableLookup_of_octEntry {dim n : ℕ} {p : Int × ℕ} (h : octEntry dim n = some p) :
    tableLookup dim n = .ok (some p) := by
  obtain ⟨row, hrow, hent⟩ := Option.bind_eq_some.mp (by simpa [octEntry, entryOf] using h)
  simp [tableLookup, hrow, hent]

/-- Unfolding the propagation loop when the next element is out of range. -/
lemma propagateGo_cons_out {n : ℕ} (sign : Int) (dim : ℕ) (rest : List ℕ)
    (hn : n < 1 ∨ 7 < n) :
    propagateGo sign dim (n :: rest) = .error (.invalidDimension n) := by
  simp only [propagateGo]
  rw [if_pos hn]

/-- Unfolding the propagation loop when the lookup crashes. -/
lemma propagateGo_cons_err {n : ℕ} (sign : Int) (dim : ℕ) (rest : List ℕ) {e : PropError}
    (hn : ¬ (n < 1 ∨ 7 < n)) (hstep : tableLookup dim n = .error e) :
    propagateGo sign dim (n :: rest) = .error e := by
  simp only [propagateGo]
  rw [if_neg hn, hstep]

/-- Unfolding the propagation loop when the lookup yields a null entry. -/
lemma propagateGo_cons_null {n : ℕ} (sign : Int) (dim : ℕ) (rest : List ℕ)
    (hn : ¬ (n < 1 ∨ 7 < n)) (hstep : tableLookup dim n = .ok none) :
    propagateGo sign dim (n :: rest) = .error .invalidProduct := by
  simp only [propagateGo]
  rw [if_neg hn, hstep]

/-- Unfolding the propagation loop on a successful lookup. -/
lemma propagateGo_cons_step {n : ℕ} (sign : Int) (dim : ℕ) (rest : List ℕ) {p : Int × ℕ}
    (hn : ¬ (n < 1 ∨ 7 < n)) (hstep : tableLookup dim n = .ok (some p)) :
    propagateGo sign dim (n :: rest) = propagateGo (sign * p.1) p.2 rest := by
  simp only [propagateGo]
  rw [if_neg hn, hstep]

/-- Characterization of the propagation loop on dimensions in 0..7: it
succeeds exactly on walkable chains, and on success computes the sign and
target fold. -/
lemma propagateGo_spec : ∀ (chain : List ℕ) (sign : Int) (dim : ℕ), dim ≤ 7 →
    (((propagateGo sign dim chain).isOk = true) ↔ validChain dim chain = true) ∧
    (validChain dim chain = true →
      propagateGo sign dim chain = .ok (chainResult sign dim chain))
  | [], sign, dim, hdim => ⟨by constructor <;> intro <;> rfl, fun _ => rfl⟩
  | n :: rest, sign, dim, hdim => by
    by_cases hn : n < 1 ∨ 7 < n
    · have hgo := propagateGo_cons_out sign dim rest hn
      have hv : validChain dim (n :: rest) = false := by
        simp only [validChain]
        rcases hn with h | h
        · have h1 : ¬ (1 ≤ n) := by omega
          simp [h1]
        · have h7 : ¬ (n ≤ 7) := by omega
          simp [h7]
      rw [hgo, hv]
      exact ⟨by constructor <;> intro h <;> exact absurd h (by simp [Except.isOk, Except.toBool]),
        by intro h; exact absurd h (by simp)⟩
    · have h1n : 1 ≤ n := by omega
      have h7n : n ≤ 7 := by omega
      by_cases hd0 : dim = 0
      · subst hd0
        have hstep : tableLookup 0 n = .error .typeError := rfl
        have hgo := propagateGo_cons_err sign 0 rest hn hstep
        have hv : validChain 0 (n :: rest) = false := by
          simp [validChain]
        rw [hgo, hv]
        exact ⟨by constructor <;> intro h <;> exact absurd h (by simp [Except.isOk, Except.toBool]),
          by intro h; exact absurd h (by simp)⟩
      · obtain ⟨hsome, htar⟩ := octEntry_total dim n (by omega) hdim h1n h7n
        obtain ⟨p, hp⟩ := Option.isSome_iff_exists.mp hsome
        have hstep := tableLookup_of_octEntry hp
        have hgo := propagateGo_cons_step sign dim rest hn hstep
        have hsgn : octSignD dim n = p.1 := by
          simp [octSignD, hp]
        have htgt : octTargetD dim n = p.2 := by
          simp [octTargetD, hp]
        have hv : validChain dim (n :: rest) = validChain p.2 rest := by
          simp only [validChain, htgt]
          simp [h1n, h7n, hd0]
        have hp7 : p.2 ≤ 7 := by
          rw [htgt] at htar
          exact htar
        obtain ⟨ih1, ih2⟩ := propagateGo_spec rest (sign * p.1) p.2 hp7
        refine ⟨by rw [hgo, hv]; exact ih1, ?_⟩
        intro hvv
        rw [hgo]
        rw [hv] at hvv
        rw [ih2 hvv]
        have hres : chainResult sign dim (n :: rest) = chainResult (sign * p.1) p.2 rest := by
          simp only [chainResult, hsgn, htgt]
        rw [hres]

/-- Map fusion for Except. -/
lemma except_map_map {ε α β γ : Type} (f : β → γ) (g : α → β) (e : Except ε α) :
    Except.map f (Except.map g e) = Except.map (fun x => f (g x)) e := by
  cases e <;> rfl

/-- Factoring the accumulated sign out of the propagation loop. -/
lemma propagateGo_sign : ∀ (chain : List ℕ) (sign : Int) (dim : ℕ),
    propagateGo sign dim chain =
      Except.map (fun r => (sign * r.1, r.2)) (propagateGo 1 dim chain)
  | [], sign, dim => by
    simp [propagateGo, Except.map]
  | n :: rest, sign, dim => by
    by_cases hn : n < 1 ∨ 7 < n
    · rw [propagateGo_cons_out sign dim rest hn, propagateGo_cons_out 1 dim rest hn]
      rfl
    · cases hstep : tableLookup dim n with
      | error e =>
        rw [propagateGo_cons_err sign dim rest hn hstep,
          propagateGo_cons_err 1 dim rest hn hstep]
        rfl
      | ok oe =>
        cases oe with
        | none =>
          rw [propagateGo_cons_null sign dim rest hn hstep,
            propagateGo_cons_null 1 dim rest hn hstep]
          rfl
        | some p =>
          rw [propagateGo_cons_step sign dim rest hn hstep,
            propagateGo_cons_step 1 dim rest hn hstep]
          rw [propagateGo_sign rest (sign * p.1) p.2, propagateGo_sign rest (1 * p.1) p.2]
          rw [except_map_map]
          congr 1
          funext r
          simp [mul_assoc]

/-- The propagation loop splits over list append as a bind. -/
lemma propagateGo_append : ∀ (xs ys : List ℕ) (sign : Int) (dim : ℕ),
    propagateGo sign dim (xs ++ ys) =
      Except.bind (propagateGo sign dim xs) (fun r => propagateGo r.1 r.2 ys)
  | [], ys, sign, dim => by
    simp [propagateGo, Except.bind]
  | n :: xs, ys, sign, dim => by
    by_cases hn : n < 1 ∨ 7 < n
    · rw [List.cons_append, propagateGo_cons_out sign dim (xs ++ ys) hn,
        propagateGo_cons_out sign dim xs hn]
      rfl
    · cases hstep : tableLookup dim n with
      | error e =>
        rw [List.cons_append, propagateGo_cons_err sign dim (xs ++ ys) hn hstep,
          propagateGo_cons_err sign dim xs hn hstep]
        rfl
      | ok oe =>
        cases oe with
        | none =>
          rw [List.cons_append, propagateGo_cons_null sign dim (xs ++ ys) hn hstep,
            propagateGo_cons_null sign dim xs hn hstep]
          rfl
        | some p =>
          rw [List.cons_append, propagateGo_cons_step sign dim (xs ++ ys) hn hstep,
            propagateGo_cons_step sign dim xs hn hstep]
          exact propagateGo_append xs ys (sign * p.1) p.2

/-- Sign extraction from the boolean all-signs-are-units hypothesis. -/
lemma sign_pm_of_all {T : OctTableT}
    (hT : ∀ i j : Fin 8, ((entryOf T i.val j.val).all
      fun e => decide (e.1 = 1 ∨ e.1 = -1)) = true)
    (i j : Fin 8) {e : Int × ℕ}
    (he : entryOf T i.val j.val = some e) : e.1 = 1 ∨ e.1 = -1 := by
  have h := hT i j
  rw [he] at h
  simpa using h

/-- A cycle over unit signs is never reported inconsistent. -/
lemma cycleInconsistency_eq_none (T : OctTableT)
    (hT : ∀ i j : Fin 8, ((entryOf T i.val j.val).all
      fun e => decide (e.1 = 1 ∨ e.1 = -1)) = true)
    (a b c : Fin 8) :
    cycleInconsistency T (a.val, b.val, c.val) = none := by
  unfold cycleInconsistency
  cases hab : entryOf T a.val b.val with
  | none => rfl
  | some x =>
    cases hbc : entryOf T b.val c.val with
    | none => rfl
    | some y =>
      cases hca : entryOf T c.val a.val with
      | none => rfl
      | some z =>
        have h1 := sign_pm_of_all hT a b hab
        have h2 := sign_pm_of_all hT b c hbc
        have h3 := sign_pm_of_all hT c a hca
        simp only []
        rcases h1 with h1 | h1 <;> rcases h2 with h2 | h2 <;> rcases h3 with h3 | h3 <;>
          rw [if_neg (by rw [h1, h2, h3]; norm_num)]

/-! ### Claim theorems -/

/-- C2 counterexample: for the text `Hi. Bye` the concatenation of the
emitted chunks is `Hi.`; the trailing segment without sentence-ending
punctuation is dropped, so the original text is not reconstructed. -/
theorem chunks_flatten_cx :
    (chunks ("Hi. Bye".toList) 512 100).flatten ≠ "Hi. Bye".toList := by decide

/-- C2 (amended): concatenating all chunks in order reconstructs the
concatenation of the regex-matched sentences (the whole text when the
regex finds no sentence at all); characters outside every sentence match
— a trailing segment with no sentence-ending punctuation, or leading
punctuation — are dropped. -/
theorem chunks_flatten_eq_sentences (text : List Char) (maxC minC : ℕ) :
    (chunks text maxC minC).flatten = (sentencesOf text).flatten := by
  rw [chunks, chunkLoop_flatten]
  rfl

/-- C4 counterexample: with bounds (10, 5) and two sentences of lengths 4
and 9, the single emitted chunk has 13 > 10 characters although every
individual sentence fits within 10: the under-minimum accumulation was
merged forward past maxChunkSize. -/
theorem chunk_oversize_cx :
    chunks ("aaa.bbbbbbbb.".toList) 10 5 = ["aaa.bbbbbbbb.".toList] ∧
    ("aaa.bbbbbbbb.".toList).length = 13 ∧
    ((sentencesOf ("aaa.bbbbbbbb.".toList)).all fun s => decide (s.length ≤ 10)) = true := by
  refine ⟨by decide, by decide, by decide⟩

/-- C4 (amended): every emitted chunk is bounded by
max maxChunkSize (minChunkSize - 1 + longest sentence length): a chunk can
exceed maxChunkSize not only when a single sentence does, but also when an
accumulation still below minChunkSize is merged forward with the next
sentence; no chunk is ever truncated. -/
theorem chunk_size_bound (text : List Char) (maxC minC : ℕ) (c : List Char)
    (hc : c ∈ chunks text maxC minC) :
    c.length ≤ max maxC (minC - 1 + maxSentLen text) := by
  refine chunkLoop_bound maxC minC (maxSentLen text) (sentencesOf text) [] ?_ (by simp) c hc
  intro s hs
  exact length_le_foldrMax _ s hs

/-- C4 witness: the bound applied to the concrete chunk `Hi.` of the text
`Hi. Bye` with the default bounds. -/
theorem chunk_size_bound_witness :
    ("Hi.".toList).length ≤ max 512 (100 - 1 + maxSentLen ("Hi. Bye".toList)) :=
  chunk_size_bound ("Hi. Bye".toList) 512 100 ("Hi.".toList) (by decide)

/-- C3 counterexample: on the uniform vector the coherence flag is 0 but
the covering count is not 0: all seven 6-element subsets have mass
6/7 ≥ 0.8 and the full set has mass 1. -/
theorem uniform_diagnostics_cx :
    ¬ (computeCohomologyClass uniformVec = 0 ∧ (zariskiCoverings uniformVec).length = 0) := by
  with_unfolding_all decide

/-- C3 (amended): on the uniform vector [1/7]*7 the coherence flag is 0
and the covering count is 8 (the seven subsets of size 6 and the full
set reach the 0.8 threshold). -/
theorem uniform_diagnostics :
    computeCohomologyClass uniformVec = 0 ∧ (zariskiCoverings uniformVec).length = 8 := by
  with_unfolding_all decide

/-- C9: the fixed propagation table is antisymmetric off the diagonal —
equal targets, opposite signs — and every diagonal entry is (-1, 0). -/
theorem octTable_antisymmetric :
    (∀ i j : Fin 7, i ≠ j →
      (octEntry (i.val + 1) (j.val + 1)).isSome = true ∧
      octTargetD (i.val + 1) (j.val + 1) = octTargetD (j.val + 1) (i.val + 1) ∧
      octSignD (i.val + 1) (j.val + 1) = - octSignD (j.val + 1) (i.val + 1)) ∧
    (∀ i : Fin 7, octEntry (i.val + 1) (i.val + 1) = some (-1, 0)) := by decide

/-- C9 witness: antisymmetry instantiated at the pair (1, 2). -/
theorem octTable_antisymmetric_witness :
    (octEntry 1 2).isSome = true ∧ octTargetD 1 2 = octTargetD 2 1 ∧
    octSignD 1 2 = - octSignD 2 1 :=
  octTable_antisymmetric.1 0 1 (by decide)

/-- C10: whenever every present table entry carries a sign that is 1 or
-1, the product of the three signs around each Fano cycle is 1 or -1, so
the cycle portion of verifyFanoStructure reports no warning for any such
table; its failure branch is unreachable. -/
theorem fano_cycle_check_silent (T : OctTableT)
    (hT : ∀ i j : Fin 8, ((entryOf T i.val j.val).all
      fun e => decide (e.1 = 1 ∨ e.1 = -1)) = true) :
    cycleWarnings T = [] := by
  rw [cycleWarnings, List.filterMap_eq_nil_iff]
  intro cyc hcyc
  fin_cases hcyc
  · exact cycleInconsistency_eq_none T hT 1 2 4
  · exact cycleInconsistency_eq_none T hT 2 3 5
  · exact cycleInconsistency_eq_none T hT 3 4 6
  · exact cycleInconsistency_eq_none T hT 4 5 7
  · exact cycleInconsistency_eq_none T hT 5 6 1
  · exact cycleInconsistency_eq_none T hT 6 7 2
  · exact cycleInconsistency_eq_none T hT 7 1 3

/-- C10 witness: the worker's own table has unit signs, so its cycle check
emits no warnings. -/
theorem fano_cycle_check_silent_witness : cycleWarnings octTable = [] :=
  fano_cycle_check_silent octTable (by decide)

/-- C7 counterexample: the chain [1, 1] from start symbol 1 lies entirely
in 1..7, yet propagation does not return a final state and does not fail
with the range error: the first step lands on symbol 0 and the next lookup
crashes on the null row octTable[0]. -/
theorem propagate_inrange_crash_cx :
    (([1, 1] : List ℕ).all fun n => decide (1 ≤ n ∧ n ≤ 7)) = true ∧
    propagateNarrative 1 [1, 1] = .error .typeError :=
  ⟨by decide, rfl⟩

/-- C7 (amended): for a start symbol in 1..7, propagation succeeds exactly
on walkable chains — every element in 1..7 and no intermediate state on
the null row 0 — and on success the final (sign, symbol) is the fold that
multiplies the table sign into the accumulator and moves to the table
target at each step.  A chain that leaves the walkable set fails (with the
range error for an out-of-range element, or a crash on row 0). -/
theorem propagate_characterization (s : ℕ) (hs1 : 1 ≤ s) (hs7 : s ≤ 7) (chain : List ℕ) :
    ((propagateNarrative s chain).isOk = true ↔ validChain s chain = true) ∧
    (validChain s chain = true →
      propagateNarrative s chain = .ok (chainResult 1 s chain)) := by
  have h := propagateGo_spec chain 1 s hs7
  have _ := hs1
  exact h

/-- C7 witness: the characterization applied to start 2 and chain [3]. -/
theorem propagate_characterization_witness :
    ((propagateNarrative 2 [3]).isOk = true ↔ validChain 2 [3] = true) ∧
    (validChain 2 [3] = true → propagateNarrative 2 [3] = .ok (chainResult 1 2 [3])) :=
  propagate_characterization 2 (by decide) (by decide) [3]

/-- C8: propagating [a, b] from s equals propagating [a] from s, then [b]
from the reached symbol, with the final sign the product of the two signs
(including the error cases, which agree on both sides). -/
theorem propagate_compose (s a b : ℕ)
    (hs1 : 1 ≤ s) (hs7 : s ≤ 7) (ha1 : 1 ≤ a) (ha7 : a ≤ 7) (hb1 : 1 ≤ b) (hb7 : b ≤ 7) :
    propagateNarrative s [a, b] =
      Except.bind (propagateNarrative s [a]) (fun r1 =>
        Except.map (fun r2 => (r1.1 * r2.1, r2.2)) (propagateNarrative r1.2 [b])) := by
  have _ := hs1; have _ := hs7; have _ := ha1; have _ := ha7; have _ := hb1; have _ := hb7
  have happ : ([a, b] : List ℕ) = [a] ++ [b] := rfl
  rw [propagateNarrative, happ, propagateGo_append [a] [b] 1 s]
  exact congrArg _ (funext fun r => propagateGo_sign [b] r.1 r.2)

/-- C8 witness: composition instantiated at start 2 with chain [3, 5]. -/
theorem propagate_compose_witness :
    propagateNarrative 2 [3, 5] =
      Except.bind (propagateNarrative 2 [3]) (fun r1 =>
        Except.map (fun r2 => (r1.1 * r2.1, r2.2)) (propagateNarrative r1.2 [5])) :=
  propagate_compose 2 3 5 (by decide) (by decide) (by decide) (by decide) (by decide) (by decide)

/-- C5: classifyText fails with EmptyInputError exactly when no chunk of
trimmed length at least 10 yields an embedding; and as soon as one chunk
embeds, the request succeeds, the failing chunks being skipped (the
result counts exactly the successfully embedded chunks). -/
theorem classify_empty_input_iff (E S : ℚ → ℚ) (emb : List Char → Option (Fin 384 → ℚ))
    (labels : List String) (protos : Fin 7 → Fin 384 → ℚ)
    (text : List Char) (maxC minC : ℕ) :
    (classifyText E S emb labels protos text maxC minC = .error .emptyInput ↔
      ∀ c ∈ chunks text maxC minC, 10 ≤ (jsTrim c).length → emb (jsTrim c) = none) ∧
    ((∃ c ∈ chunks text maxC minC,
        10 ≤ (jsTrim c).length ∧ (emb (jsTrim c)).isSome = true) →
      ∃ r, classifyText E S emb labels protos text maxC minC = .ok r ∧
        r.chunksProcessed = (validEmbeddings emb text maxC minC).length) := by
  constructor
  · rw [classifyText]
    by_cases h0 : (validEmbeddings emb text maxC minC).length = 0
    · rw [if_pos h0]
      simp only [true_iff]
      exact (validEmbeddings_empty_iff emb text maxC minC).mp h0
    · rw [if_neg h0]
      constructor
      · intro hcon
        exact absurd hcon (by simp)
      · intro hall
        exact absurd ((validEmbeddings_empty_iff emb text maxC minC).mpr hall) h0
  · rintro ⟨c, hc, hlen, hsome⟩
    have h0 : (validEmbeddings emb text maxC minC).length ≠ 0 := by
      intro h0
      have hnone := (validEmbeddings_empty_iff emb text maxC minC).mp h0 c hc hlen
      rw [hnone] at hsome
      simp at hsome
    refine ⟨classifyResultOf E S labels protos (validEmbeddings emb text maxC minC), ?_, rfl⟩
    rw [classifyText, if_neg h0]

/-- C5 witness: with an embedder that fails on every chunk, the concrete
request fails with EmptyInputError. -/
theorem classify_empty_input_iff_witness :
    classifyText demoE demoS demoEmbNone demoLabels demoProtos demoText 512 100 =
      .error .emptyInput :=
  (classify_empty_input_iff demoE demoS demoEmbNone demoLabels demoProtos demoText 512 100).1.mpr
    (fun _ _ _ => rfl)

/-- C1: on every successful classification, the returned 7-entry vector is
the rectified temperature-5 softmax of the 7 cosine similarities between
the averaged embedding and the prototype embeddings — entry j equals
exp(max(0, raw j) * 5) divided by the sum of those exponentials — and
consequently, the exponential oracle being positive, all entries are
nonnegative and they sum to exactly 1 (hence to 1 within 1e-6). -/
theorem classify_vector_softmax (E S : ℚ → ℚ) (emb : List Char → Option (Fin 384 → ℚ))
    (labels : List String) (protos : Fin 7 → Fin 384 → ℚ) (text : List Char)
    (maxC minC : ℕ) (r : ClassifyResult)
    (hE : ∀ x, 0 < E x)
    (hr : classifyText E S emb labels protos text maxC minC = .ok r) :
    r.vector = rectifiedSoftmax E r.rawVector ∧
    (∀ j, r.rawVector j = cosineSimilarity S r.avgEmbedding (protos j)) ∧
    (∀ j, 0 ≤ r.vector j) ∧
    (∑ j : Fin 7, r.vector j) = 1 ∧
    |(∑ j : Fin 7, r.vector j) - 1| ≤ 1 / 1000000 := by
  rw [classifyText] at hr
  by_cases h0 : (validEmbeddings emb text maxC minC).length = 0
  · rw [if_pos h0] at hr
    exact absurd hr (by simp)
  · rw [if_neg h0] at hr
    have hr' : r = classifyResultOf E S labels protos (validEmbeddings emb text maxC minC) := by
      injection hr with h
      exact h.symm
    subst hr'
    have h1 : (classifyResultOf E S labels protos (validEmbeddings emb text maxC minC)).vector =
        rectifiedSoftmax E
          (classifyResultOf E S labels protos (validEmbeddings emb text maxC minC)).rawVector := rfl
    obtain ⟨hnn, hsum⟩ := rectifiedSoftmax_props E hE
      (classifyResultOf E S labels protos (validEmbeddings emb text maxC minC)).rawVector
    rw [h1]
    refine ⟨rfl, fun j => rfl, hnn, hsum, ?_⟩
    rw [hsum]
    norm_num

/-- C1 witness: a concrete successful run with positive oracle, whose
vector is the rectified softmax and sums to 1. -/
theorem classify_vector_softmax_witness :
    (0:ℚ) < demoE 0 ∧
    classifyText demoE demoS demoEmb demoLabels demoProtos demoText 512 100 = .ok demoResult ∧
    demoResult.vector = rectifiedSoftmax demoE demoResult.rawVector ∧
    (∑ j : Fin 7, demoResult.vector j) = 1 := by
  have hE : ∀ x : ℚ, 0 < demoE x := fun _ => one_pos
  have hok : classifyText demoE demoS demoEmb demoLabels demoProtos demoText 512 100 =
      .ok demoResult := rfl
  obtain ⟨h1, _, _, h4, _⟩ := classify_vector_softmax demoE demoS demoEmb demoLabels demoProtos
    demoText 512 100 demoResult hE hok
  exact ⟨one_pos, hok, h1, h4⟩

/-- C6 counterexample: a set-labels request with 7 labels and a 7-entry
prototype list is accepted, the labels are applied, and the previously
cached prototype embeddings stay as they were: the wrong-length prototype
list is silently ignored instead of rejected, a partial application. -/
theorem setLabels_partial_cx :
    setLabels emb0 st0 (some labels7) (some protos7) =
      .ok { currentLabels := labels7, prototypes := st0.prototypes,
            prototypeEmbeddings := st0.prototypeEmbeddings } ∧
    labels7 ≠ st0.currentLabels := by
  exact ⟨rfl, by decide⟩

/-- C6 (amended): a set-labels request whose label list is not exactly 7
long is rejected with the configuration error and nothing is applied; a
request with 7 labels always succeeds and replaces the labels, while the
prototype list is re-embedded only when it has length exactly 8 — any
other prototype payload is silently ignored, the previous descriptions and
cached embeddings remaining active. -/
theorem setLabels_spec (emb : String → List ℚ) (st : WorkerState)
    (labels protos : Option (List String)) :
    ((∀ ls, labels = some ls → ls.length ≠ 7) →
      setLabels emb st labels protos = .error "Labels must be array of exactly 7 strings") ∧
    (∀ ls, labels = some ls → ls.length = 7 →
      ∃ st', setLabels emb st labels protos = .ok st' ∧ st'.currentLabels = ls ∧
        ((∀ ps, protos = some ps → ps.length = 8 →
            st'.prototypes = ps ∧
            st'.prototypeEmbeddings = updatePrototypeEmbeddings emb ps) ∧
         (∀ ps, protos = some ps → ps.length ≠ 8 →
            st'.prototypes = st.prototypes ∧
            st'.prototypeEmbeddings = st.prototypeEmbeddings) ∧
         (protos = none →
            st'.prototypes = st.prototypes ∧
            st'.prototypeEmbeddings = st.prototypeEmbeddings))) := by
  constructor
  · intro h
    cases labels with
    | none => rfl
    | some ls =>
      have hne := h ls rfl
      simp only [setLabels]
      rw [if_neg hne]
  · intro ls hls h7
    subst hls
    cases protos with
    | none =>
      simp only [setLabels]
      rw [if_pos h7]
      refine ⟨_, rfl, rfl, ?_, ?_, fun _ => ⟨rfl, rfl⟩⟩
      · intro ps hps
        exact absurd hps (by simp)
      · intro ps hps
        exact absurd hps (by simp)
    | some ps =>
      simp only [setLabels]
      rw [if_pos h7]
      by_cases h8 : ps.length = 8
      · rw [if_pos h8]
        refine ⟨_, rfl, rfl, ?_, ?_, ?_⟩
        · intro ps' hps' _
          injection hps' with he
          subst he
          exact ⟨rfl, rfl⟩
        · intro ps' hps' hne
          injection hps' with he
          subst he
          exact absurd h8 hne
        · intro hno
          exact absurd hno (by simp)
      · rw [if_neg h8]
        refine ⟨_, rfl, rfl, ?_, ?_, ?_⟩
        · intro ps' hps' h8'
          injection hps' with he
          subst he
          exact absurd h8' h8
        · intro ps' hps' _
          exact ⟨rfl, rfl⟩
        · intro hno
          exact absurd hno (by simp)

/-- C6 witness: the concrete 6-label request is rejected with the
configuration error and the state (kept by the caller on error) is
untouched. -/
theorem setLabels_spec_witness :
    setLabels emb0 st0 (some labels6) (some protos7) =
      .error "Labels must be array of exactly 7 strings" := by
  refine (setLabels_spec emb0 st0 (some labels6) (some protos7)).1 ?_
  intro ls h
  injection h with h2
  subst h2
  decide

end Oscs
